import Mathlib

/-!
# Verification of `award_force_daily_export.py`

A shallow embedding of the daily export script: region classification,
paginated fetching, per-chapter aggregation of entry counts, report
composition, Telegram delivery and the run orchestrator, together with
theorems settling the specification claims.

Conventions:
* Python dicts are modelled as association lists (`List (String × _)`),
  which preserves insertion order as Python 3.7+ dicts do.
* The counter keys `"13_sub"`, `"13_prog"`, `"18_sub"`, `"18_prog"` become
  the structure fields `sub13`, `prog13`, `sub18`, `prog18` (Lean field
  names cannot start with a digit).
* HTTP is modelled by a `server` function from (url, params) to a response
  page; `requests.get(...).raise_for_status()` raising for status ≥ 400 is
  modelled by an `err` outcome; the unbounded `while url:` loop is modelled
  with explicit fuel, `diverge` marking fuel exhaustion.
-/

/-- `REGION_MAP` constant of the script: region tag → list of lowercase
country names, in the source's insertion order (AMR, PRC, APJ). -/
def REGION_MAP : List (String × List String) :=
  [ ("AMR", ["argentina", "brazil", "canada", "costa rica",
             "mexico", "united states of america"]),
    ("PRC", ["china"]),
    ("APJ", ["bangladesh", "india", "indonesia", "japan", "malaysia",
             "singapore", "south korea", "taiwan", "thailand",
             "vietnam", "australia", "new zealand"]) ]

/-- Python's `str.lower()`, modelled character-wise (`Char.toLower` agrees
with Python on the ASCII range; every string the script compares against is
ASCII). Defined on the character list so it reduces in the kernel. -/
def strLower (s : String) : String := ⟨s.data.map Char.toLower⟩

/-- The `for region, countries in REGION_MAP.items(): if lc in countries:
return region` loop followed by `return "EMEA"`. -/
def regionLookup (lc : String) : List (String × List String) → String
  | [] => "EMEA"
  | (region, countries) :: rest =>
      if lc ∈ countries then region else regionLookup lc rest

/-- `chapter_to_region` from the script. -/
def chapter_to_region (name : String) : String :=
  let lc := strLower name
  if lc = "global festival" then "Other" else regionLookup lc REGION_MAP

/-- The per-chapter counter record `{"13_sub": 0, "13_prog": 0, "18_sub": 0,
"18_prog": 0}`. -/
structure ChapterCounts where
  sub13 : Nat
  prog13 : Nat
  sub18 : Nat
  prog18 : Nat
deriving DecidableEq, Repr

/-- The zero record used to initialize `counts`. -/
def ChapterCounts.zero : ChapterCounts := ⟨0, 0, 0, 0⟩

/-- `sum(c.values())` — the row total. -/
def ChapterCounts.total (c : ChapterCounts) : Nat :=
  c.sub13 + c.prog13 + c.sub18 + c.prog18

/-- The two fields of an entry the aggregator reads:
`e["chapter"]["slug"]` and `e["status"]`. -/
structure Entry where
  chapter : String
  status : String
deriving DecidableEq, Repr

/-- `counts[ch]["13_sub" if st == "submitted" else "13_prog"] += 1`
(resp. the `18_*` pair when `is18` is true). -/
def bump (is18 : Bool) (st : String) (c : ChapterCounts) : ChapterCounts :=
  if is18 then
    if st = "submitted" then { c with sub18 := c.sub18 + 1 }
    else { c with prog18 := c.prog18 + 1 }
  else
    if st = "submitted" then { c with sub13 := c.sub13 + 1 }
    else { c with prog13 := c.prog13 + 1 }

/-- One loop body of `build_counts`: `if ch in counts:` then increment the
selected counter of the entry's chapter. -/
def updateCounts (is18 : Bool) (counts : List (String × ChapterCounts))
    (e : Entry) : List (String × ChapterCounts) :=
  if counts.any (fun p => p.1 = e.chapter) then
    counts.map (fun p => if p.1 = e.chapter then (p.1, bump is18 e.status p.2) else p)
  else counts

/-- Chapter metadata `{"name": nm, "region": chapter_to_region(nm)}`. -/
structure ChapterMeta where
  name : String
  region : String
deriving DecidableEq, Repr

/-- `{slug: {...zeros...} for slug in chapters}`. -/
def initCounts (chapters : List (String × ChapterMeta)) :
    List (String × ChapterCounts) :=
  chapters.map (fun p => (p.1, ChapterCounts.zero))

/-- `build_counts`, with the two `gather_entries` results passed in as the
lists `es13` (category 13–17) and `es18` (category above 18). -/
def build_counts (chapters : List (String × ChapterMeta))
    (es13 es18 : List Entry) : List (String × ChapterCounts) :=
  let counts := initCounts chapters
  let counts := es13.foldl (updateCounts false) counts
  es18.foldl (updateCounts true) counts

/-- `build_counts` with the two category passes swapped (the above-18 pass
run first); used to state pass-order insensitivity. -/
def build_countsSwapped (chapters : List (String × ChapterMeta))
    (es13 es18 : List Entry) : List (String × ChapterCounts) :=
  let counts := initCounts chapters
  let counts := es18.foldl (updateCounts true) counts
  es13.foldl (updateCounts false) counts

/-! ## Paginated fetcher (`cf_get_all`) -/

/-- `BASE_URL` constant of the script. -/
def BASE_URL : String := "https://api.us.cr4ce.com"

/-- One HTTP response as `cf_get_all` reads it: the status code (through
`raise_for_status`), the `data` record batch, and `next_page_url` (absent
is `none`). -/
structure Page (α : Type) where
  status : Nat
  pdata : List α
  next_page_url : Option String
deriving Repr

/-- A request as issued by one iteration of the fetch loop: the url and the
`params` argument passed to `requests.get` (`none` once dropped). -/
abbrev Req := String × Option String

/-- Outcome of the fetch loop under a fuel bound: `ok items reqs` when the
loop exits normally, `err s reqs` when `raise_for_status` raises on a page
with status `s`, `diverge` when the fuel runs out (the loop is still
running). Both terminating outcomes carry the list of requests issued. -/
inductive FetchOut (α : Type) where
  | ok (items : List α) (reqs : List Req)
  | err (status : Nat) (reqs : List Req)
  | diverge
deriving Repr, DecidableEq

/-- `body.get("next_page_url") or None`: a missing or falsy (empty-string)
next-page reference becomes `None`. -/
def orNone : Option String → Option String
  | none => none
  | some s => if s = "" then none else some s

/-- The `while url:` loop of `cf_get_all`. State: remaining fuel, current
`url` (`none` meaning falsy, i.e. the loop exits), current `params`, the
accumulated `items`, and the requests issued so far. `raise_for_status`
raises on any status ≥ 400. -/
def cfLoop (server : String → Option String → Page α) :
    Nat → Option String → Option String → List α → List Req → FetchOut α
  | _, none, _, items, reqs => .ok items reqs
  | 0, some _, _, _, _ => .diverge
  | fuel + 1, some url, params, items, reqs =>
      let r := server url params
      let reqs' := reqs ++ [(url, params)]
      if 400 ≤ r.status then .err r.status reqs'
      else cfLoop server fuel (orNone r.next_page_url) none (items ++ r.pdata) reqs'

/-- `cf_get_all(path, params)` against an abstract `server`, with fuel. -/
def cf_get_all (server : String → Option String → Page α) (fuel : Nat)
    (path : String) (params : Option String) : FetchOut α :=
  cfLoop server fuel (some (BASE_URL ++ path)) params [] []

/-- A `server` serves the chain `(u₀, params)` of successful pages
`batches` with request log `reqs`: each page has a success status, each
non-final page's next-page reference is the next url in the chain (params
dropped), and the final page's next-page reference is falsy. -/
inductive Chain (server : String → Option String → Page α) :
    String → Option String → List (List α) → List Req → Prop
  | last {u params} :
      (server u params).status < 400 →
      orNone (server u params).next_page_url = none →
      Chain server u params [(server u params).pdata] [(u, params)]
  | step {u params u' batches reqs} :
      (server u params).status < 400 →
      orNone (server u params).next_page_url = some u' →
      Chain server u' none batches reqs →
      Chain server u params ((server u params).pdata :: batches) ((u, params) :: reqs)

/-! ## Report composer (the compose-and-sort loop of `main`) -/

/-- Code-point comparison of two character lists; Python compares strings
as lexicographic sequences of code points. -/
def cmpN : List Char → List Char → Ordering
  | [], [] => .eq
  | [], _ :: _ => .lt
  | _ :: _, [] => .gt
  | a :: as, b :: bs =>
      if a.toNat < b.toNat then .lt
      else if b.toNat < a.toNat then .gt
      else cmpN as bs

/-- Python's `≤` on the sort-key tuples `(region, name.lower())`:
lexicographic, region first, code-point string comparison. This is the
order `sorted(..., key=lambda kv: (kv[1]["region"], kv[1]["name"].lower()))`
sorts ascending by. -/
def keyLE (a b : String × String) : Bool :=
  match cmpN a.1.data b.1.data with
  | .lt => true
  | .gt => false
  | .eq => cmpN a.2.data b.2.data ≠ Ordering.gt

/-- The sort key of a `chapters` item. -/
def chapterSortKey (p : String × ChapterMeta) : String × String :=
  (p.2.region, strLower p.2.name)

/-- `sorted(chapters.items(), key=lambda kv: (kv[1]["region"],
kv[1]["name"].lower()))` — Python's sort is a stable mergesort. -/
def sortChapters (chapters : List (String × ChapterMeta)) :
    List (String × ChapterMeta) :=
  chapters.mergeSort (fun a b => keyLE (chapterSortKey a) (chapterSortKey b))

/-- One report row, as appended to `rows` in `main`. -/
structure ReportRow where
  no : Nat
  region : String
  chapterName : String
  sub13 : Nat
  prog13 : Nat
  sub18 : Nat
  prog18 : Nat
  total : Nat
deriving DecidableEq, Repr

/-- The row-building loop body: `counts[slug]` lookup (a missing slug is a
`KeyError`, modelled as `none`) and row construction, with `i` the
enumeration counter. -/
def composeRows (counts : List (String × ChapterCounts)) :
    Nat → List (String × ChapterMeta) → Option (List ReportRow)
  | _, [] => some []
  | i, (slug, meta) :: rest => do
      let c ← counts.lookup slug
      let rows ← composeRows counts (i + 1) rest
      pure ({ no := i, region := meta.region, chapterName := meta.name,
              sub13 := c.sub13, prog13 := c.prog13,
              sub18 := c.sub18, prog18 := c.prog18,
              total := c.total } :: rows)

/-- The compose-and-sort block of `main`: sort `chapters.items()` by
(region, lowercased name) and build the `rows` list with `enumerate(...,
start=1)`. -/
def compose (chapters : List (String × ChapterMeta))
    (counts : List (String × ChapterCounts)) : Option (List ReportRow) :=
  composeRows counts 1 (sortChapters chapters)

/-! ## Orchestrator (`main`), chapter loader and Telegram sender -/

/-- `CATEGORY_SLUGS` constant of the script. -/
def CATEGORY_SLUGS : List (String × String) :=
  [("13_17", "ZLgyzemp"), ("above18", "Kgwrlowa")]

/-- The fields of a `/chapter` record that `fetch_chapters` reads:
`ch["slug"]` and `ch["name"]["en_GB"]`. -/
structure ChapterRec where
  slug : String
  name : String
deriving DecidableEq, Repr

/-- Python dict assignment `d[k] = v`: overwrite in place (keeping the
original position) when the key exists, else append. -/
def insertDict (d : List (String × α)) (k : String) (v : α) :
    List (String × α) :=
  if d.any (fun p => p.1 = k) then
    d.map (fun p => if p.1 = k then (k, v) else p)
  else d ++ [(k, v)]

/-- The dict-building loop of `fetch_chapters`:
`chapters[ch["slug"]] = {"name": nm, "region": chapter_to_region(nm)}`. -/
def chaptersOfRecs (recs : List ChapterRec) : List (String × ChapterMeta) :=
  recs.foldl
    (fun d ch => insertDict d ch.slug ⟨ch.name, chapter_to_region ch.name⟩) []

/-- Outcome of the `requests.post` call in `send_to_telegram`: either a
response (with `resp.ok` and `resp.text`), or a raised exception such as a
timeout or connection failure (the transport is the external `requests`
library; its calls can raise). -/
inductive TgOutcome where
  | resp (ok : Bool) (text : String)
  | raise (exc : String)
deriving DecidableEq, Repr

/-- What a run failure caught at `main`'s boundary was: a non-success HTTP
page status raised in `cf_get_all`, a `KeyError` from `counts[slug]`, or an
exception raised out of `send_to_telegram`'s transport call. -/
inductive RunError where
  | http (status : Nat)
  | keyError
  | tgRaise (exc : String)
deriving DecidableEq, Repr

/-- The observable log/side-effect events of a run, in order. -/
inductive Event where
  | logKeyMissing
  | runStart
  | chaptersLoaded (n : Nat)
  | pullingEntries (categorySlug : String)
  | workbookSaved (rows : List ReportRow)
  | tgMissingCreds
  | tgSent
  | tgFailed (text : String)
  | runFailed (e : RunError)
  | runEnd
deriving DecidableEq, Repr

/-- `send_to_telegram`: skip (no attempt) when a credential is missing;
otherwise post and report `resp.ok` / `resp.text`. Returns whether an
upload was attempted and either the events logged (normal return) or the
exception raised by the transport call. -/
def send_to_telegram (botToken chatId : String) (out : TgOutcome) :
    Bool × Except String (List Event) :=
  if botToken = "" ∨ chatId = "" then (false, .ok [.tgMissingCreds])
  else
    match out with
    | .resp ok text => (true, .ok [if ok then .tgSent else .tgFailed text])
    | .raise exc => (true, .error exc)

/-- Everything a run of `main` consumes: the three environment secrets, the
remote API (as one server function per record shape), the fuel bound for
the pagination loops, and the Telegram transport outcome. -/
structure World where
  apiKey : String
  botToken : String
  chatId : String
  chapterServer : String → Option String → Page ChapterRec
  entryServer : String → Option String → Page Entry
  fuel : Nat
  tgOutcome : TgOutcome

/-- `fetch_chapters()` of a world: fetch `/chapter` pages. -/
def fetch_chapters (w : World) : FetchOut ChapterRec :=
  cf_get_all w.chapterServer w.fuel "/chapter" (some "status=active&per_page=100")

/-- `gather_entries(category_slug)` of a world: fetch `/entry` pages for
one category. -/
def gather_entries (w : World) (categorySlug : String) : FetchOut Entry :=
  cf_get_all w.entryServer w.fuel "/entry"
    (some ("category=" ++ categorySlug ++ "&per_page=100"))

/-- The try-block of `main()` (everything between the two run markers):
load chapters, aggregate both categories, compose, save workbook, send to
Telegram; an exception anywhere in it is caught at the block's single
boundary and logged as `runFailed`. Returns the middle events, `none`
meaning a pagination loop ran out of fuel (the run never terminates). -/
def mainBody (w : World) : Option (List Event) :=
  let slug13 := (CATEGORY_SLUGS.lookup "13_17").getD ""
  let slug18 := (CATEGORY_SLUGS.lookup "above18").getD ""
  match fetch_chapters w with
  | .diverge => none
  | .err s _ => some [.runFailed (.http s)]
  | .ok recs _ =>
    let chapters := chaptersOfRecs recs
    let loaded := Event.chaptersLoaded chapters.length
    match gather_entries w slug13 with
    | .diverge => none
    | .err s _ => some [loaded, .pullingEntries slug13, .runFailed (.http s)]
    | .ok es13 _ =>
      match gather_entries w slug18 with
      | .diverge => none
      | .err s _ =>
          some [loaded, .pullingEntries slug13, .pullingEntries slug18,
                .runFailed (.http s)]
      | .ok es18 _ =>
        let counts := build_counts chapters es13 es18
        let pre := [loaded, Event.pullingEntries slug13,
                    Event.pullingEntries slug18]
        match compose chapters counts with
        | none => some (pre ++ [.runFailed .keyError])
        | some rows =>
          match send_to_telegram w.botToken w.chatId w.tgOutcome with
          | (_, .error exc) =>
              some (pre ++ [.workbookSaved rows, .runFailed (.tgRaise exc)])
          | (_, .ok tgEvents) =>
              some (pre ++ [.workbookSaved rows] ++ tgEvents)

/-- `main()`: the API-key guard (which returns before the start marker),
then the start marker, the guarded try-block, and the end marker. -/
def mainRun (w : World) : Option (List Event) :=
  if w.apiKey = "" then some [.logKeyMissing]
  else (mainBody w).map (fun evs => Event.runStart :: evs ++ [Event.runEnd])

/-! ## Concrete fixtures used by witnesses and counterexamples -/

/-- The rank of each region tag in plain lexicographic (code-point) string
order; stated by the implicit-ordering claim. -/
def regionRank : String → Nat
  | "AMR" => 0
  | "APJ" => 1
  | "EMEA" => 2
  | "Other" => 3
  | "PRC" => 4
  | _ => 5

/-- The five region tags the classifier can produce. -/
def regionTags : List String := ["AMR", "APJ", "EMEA", "Other", "PRC"]

/-- A three-page `/entry` fixture: pages of 100, 100 and 7 records, chained
by `next_page_url`. -/
def fixtureServer : String → Option String → Page Nat := fun url _ =>
  if url = BASE_URL ++ "/entry" then ⟨200, List.range 100, some "page2"⟩
  else if url = "page2" then
    ⟨200, (List.range 100).map (fun n => n + 100), some "page3"⟩
  else if url = "page3" then
    ⟨200, (List.range 7).map (fun n => n + 200), none⟩
  else ⟨404, [], none⟩

/-- A server on which every response carries a truthy next-page reference
(a reference cycle). -/
def cycleServer : String → Option String → Page Nat :=
  fun _ _ => ⟨200, [], some "again"⟩

/-- A one-page `/chapter` server with a single chapter. -/
def okChapterServer : String → Option String → Page ChapterRec :=
  fun _ _ => ⟨200, [⟨"ch-a", "Alpha"⟩], none⟩

/-- A one-page `/entry` server with a single submitted entry. -/
def okEntryServer : String → Option String → Page Entry :=
  fun _ _ => ⟨200, [⟨"ch-a", "submitted"⟩], none⟩

/-- A `/chapter` server answering 500 on every request. -/
def errChapterServer : String → Option String → Page ChapterRec :=
  fun _ _ => ⟨500, [], none⟩

/-- An `/entry` server answering 500 on every request. -/
def errEntryServer : String → Option String → Page Entry :=
  fun _ _ => ⟨500, [], none⟩

/-- A world whose primary API credential is absent. -/
def wKeyMissing : World :=
  ⟨"", "bot-token", "42", okChapterServer, okEntryServer, 5, .resp true "ok"⟩

/-- A world whose chapter fetch fails with HTTP 500. -/
def wChapterFail : World :=
  ⟨"api-key", "bot-token", "42", errChapterServer, okEntryServer, 5,
   .resp true "ok"⟩

/-- A world whose entry fetches fail with HTTP 500. -/
def wEntryFail : World :=
  ⟨"api-key", "bot-token", "42", okChapterServer, errEntryServer, 5,
   .resp true "ok"⟩

/-- A world in which every step succeeds. -/
def wHappy : World :=
  ⟨"api-key", "bot-token", "42", okChapterServer, okEntryServer, 5,
   .resp true "ok"⟩

/-! ## Lemmas about the region classifier -/

theorem regionLookup_of_mem_AMR {lc : String}
    (h : lc ∈ ["argentina", "brazil", "canada", "costa rica", "mexico",
               "united states of america"]) :
    regionLookup lc REGION_MAP = "AMR" ∧ lc ≠ "global festival" := by
  simp only [List.mem_cons, List.not_mem_nil, or_false] at h
  rcases h with rfl | rfl | rfl | rfl | rfl | rfl <;> exact ⟨by decide, by decide⟩

theorem regionLookup_of_mem_PRC {lc : String} (h : lc ∈ ["china"]) :
    regionLookup lc REGION_MAP = "PRC" ∧ lc ≠ "global festival" := by
  simp only [List.mem_cons, List.not_mem_nil, or_false] at h
  rcases h with rfl
  exact ⟨by decide, by decide⟩

theorem regionLookup_of_mem_APJ {lc : String}
    (h : lc ∈ ["bangladesh", "india", "indonesia", "japan", "malaysia",
               "singapore", "south korea", "taiwan", "thailand",
               "vietnam", "australia", "new zealand"]) :
    regionLookup lc REGION_MAP = "APJ" ∧ lc ≠ "global festival" := by
  simp only [List.mem_cons, List.not_mem_nil, or_false] at h
  rcases h with rfl | rfl | rfl | rfl | rfl | rfl | rfl | rfl | rfl | rfl | rfl | rfl <;>
    exact ⟨by decide, by decide⟩

/-- C2: `chapter_to_region` is total and deterministic (it is a Lean
function); after lowercasing, "global festival" maps to Other; an exact
member of a region's country list maps to that region (for every case
variation, since the test is on the lowercased input); anything else maps
to EMEA; the three case variants of "Global Festival" map to Other. -/
theorem claim_C2 (s : String) :
    (strLower s = "global festival" → chapter_to_region s = "Other") ∧
    (∀ region countries, (region, countries) ∈ REGION_MAP →
      strLower s ∈ countries → chapter_to_region s = region) ∧
    ((∀ p ∈ REGION_MAP, strLower s ∉ p.2) → strLower s ≠ "global festival" →
      chapter_to_region s = "EMEA") ∧
    chapter_to_region "Global Festival" = "Other" ∧
    chapter_to_region "global festival" = "Other" ∧
    chapter_to_region "GLOBAL FESTIVAL" = "Other" := by
  refine ⟨?_, ?_, ?_, by decide, by decide, by decide⟩
  · intro h
    simp [chapter_to_region, h]
  · intro region countries hmem hin
    simp only [REGION_MAP, List.mem_cons, List.not_mem_nil, or_false,
               Prod.mk.injEq] at hmem
    rcases hmem with ⟨rfl, rfl⟩ | ⟨rfl, rfl⟩ | ⟨rfl, rfl⟩
    · obtain ⟨h1, h2⟩ := regionLookup_of_mem_AMR hin
      simp [chapter_to_region, h1, h2]
    · obtain ⟨h1, h2⟩ := regionLookup_of_mem_PRC hin
      simp [chapter_to_region, h1, h2]
    · obtain ⟨h1, h2⟩ := regionLookup_of_mem_APJ hin
      simp [chapter_to_region, h1, h2]
  · intro hall hne
    have h1 : strLower s ∉ ["argentina", "brazil", "canada", "costa rica",
        "mexico", "united states of america"] :=
      hall ("AMR", ["argentina", "brazil", "canada", "costa rica",
        "mexico", "united states of america"]) (by simp [REGION_MAP])
    have h2 : strLower s ∉ ["china"] :=
      hall ("PRC", ["china"]) (by simp [REGION_MAP])
    have h3 : strLower s ∉ ["bangladesh", "india", "indonesia", "japan",
        "malaysia", "singapore", "south korea", "taiwan", "thailand",
        "vietnam", "australia", "new zealand"] :=
      hall ("APJ", ["bangladesh", "india", "indonesia", "japan",
        "malaysia", "singapore", "south korea", "taiwan", "thailand",
        "vietnam", "australia", "new zealand"]) (by simp [REGION_MAP])
    simp only [List.mem_cons, List.not_mem_nil, or_false, not_or] at h1 h2 h3
    simp [chapter_to_region, hne, REGION_MAP, regionLookup, h1, h2, h3]

/-- Witness for C2: a case-varied member of the PRC list classifies to
PRC. -/
theorem claim_C2_witness :
    ("PRC", ["china"]) ∈ REGION_MAP ∧ strLower "CHINA" ∈ ["china"] ∧
    chapter_to_region "CHINA" = "PRC" :=
  ⟨by decide, by decide, (claim_C2 "CHINA").2.1 "PRC" ["china"] (by decide) (by decide)⟩

/-! ## Lemmas about the entry aggregator -/

theorem lookup_initCounts {chapters : List (String × ChapterMeta)} {slug : String}
    (h : slug ∈ chapters.map Prod.fst) :
    (initCounts chapters).lookup slug = some ChapterCounts.zero := by
  induction chapters with
  | nil => simp at h
  | cons p rest ih =>
      obtain ⟨a, m⟩ := p
      by_cases hps : a = slug
      · subst hps
        simp [initCounts, List.lookup]
      · have hmem : slug ∈ rest.map Prod.fst := by
          rcases List.mem_cons.mp h with h' | h'
          · exact absurd h'.symm hps
          · exact h'
        have hb : (slug == a) = false :=
          beq_eq_false_iff_ne.mpr (fun hh => hps hh.symm)
        simpa [initCounts, List.lookup, hb] using ih hmem

theorem map_fst_updateCounts (b : Bool) (cs : List (String × ChapterCounts))
    (e : Entry) : (updateCounts b cs e).map Prod.fst = cs.map Prod.fst := by
  unfold updateCounts
  split
  · rw [List.map_map]
    apply List.map_congr_left
    intro p _
    by_cases h : p.1 = e.chapter <;> simp [h]
  · rfl

theorem any_map_fst (l : List (String × ChapterCounts)) (q : String → Bool) :
    (l.map Prod.fst).any q = l.any (fun p => q p.1) := by
  induction l <;> simp [*]

theorem any_key_eq_of_map_fst {cs cs' : List (String × ChapterCounts)} {k : String}
    (h : cs.map Prod.fst = cs'.map Prod.fst) :
    cs.any (fun p => p.1 = k) = cs'.any (fun p => p.1 = k) := by
  have h1 := any_map_fst cs (fun x => x = k)
  have h2 := any_map_fst cs' (fun x => x = k)
  rw [← h1, ← h2, h]

theorem any_updateCounts (b : Bool) (cs : List (String × ChapterCounts))
    (e : Entry) (k : String) :
    (updateCounts b cs e).any (fun p => p.1 = k) = cs.any (fun p => p.1 = k) :=
  any_key_eq_of_map_fst (map_fst_updateCounts b cs e)

theorem updateCounts_not_mem {b : Bool} {cs : List (String × ChapterCounts)}
    {e : Entry} (h : cs.any (fun p => p.1 = e.chapter) = false) :
    updateCounts b cs e = cs := by
  unfold updateCounts
  simp [h]

theorem any_of_lookup_some {cs : List (String × ChapterCounts)} {k : String}
    {c : ChapterCounts} (h : cs.lookup k = some c) :
    cs.any (fun p => p.1 = k) = true := by
  induction cs with
  | nil => simp [List.lookup] at h
  | cons p rest ih =>
      obtain ⟨a, b⟩ := p
      by_cases hpk : a = k
      · simp [hpk]
      · have hb : (k == a) = false :=
          beq_eq_false_iff_ne.mpr (fun hh => hpk hh.symm)
        have h' : rest.lookup k = some c := by
          simpa [List.lookup, hb] using h
        simp [ih h', hpk]

theorem lookup_map_update_self {cs : List (String × ChapterCounts)} {k : String}
    {c : ChapterCounts} (g : ChapterCounts → ChapterCounts)
    (h : cs.lookup k = some c) :
    (cs.map (fun p => if p.1 = k then (p.1, g p.2) else p)).lookup k = some (g c) := by
  induction cs with
  | nil => simp [List.lookup] at h
  | cons p rest ih =>
      obtain ⟨a, b⟩ := p
      simp only [List.map_cons]
      by_cases hak : a = k
      · subst hak
        have hc : b = c := by
          simpa [List.lookup] using h
        rw [if_pos rfl]
        simp [List.lookup, hc]
      · have hb : (k == a) = false :=
          beq_eq_false_iff_ne.mpr (fun hh => hak hh.symm)
        have h' : rest.lookup k = some c := by
          simpa [List.lookup, hb] using h
        rw [if_neg hak]
        simpa [List.lookup, hb] using ih h'

theorem lookup_map_update_other {cs : List (String × ChapterCounts)} {k s : String}
    (g : ChapterCounts → ChapterCounts) (h : s ≠ k) :
    (cs.map (fun p => if p.1 = k then (p.1, g p.2) else p)).lookup s = cs.lookup s := by
  induction cs with
  | nil => rfl
  | cons p rest ih =>
      obtain ⟨a, b⟩ := p
      simp only [List.map_cons]
      by_cases hak : a = k
      · have hb : (s == a) = false :=
          beq_eq_false_iff_ne.mpr (fun hh => h (hh.trans hak))
        rw [if_pos hak]
        simp [List.lookup, hb, ih]
      · rw [if_neg hak]
        cases hsa : (s == a) <;> simp [List.lookup, hsa, ih]

theorem lookup_updateCounts_self {b : Bool} {cs : List (String × ChapterCounts)}
    {e : Entry} {c : ChapterCounts} (h : cs.lookup e.chapter = some c) :
    (updateCounts b cs e).lookup e.chapter = some (bump b e.status c) := by
  unfold updateCounts
  rw [if_pos (any_of_lookup_some h)]
  exact lookup_map_update_self (bump b e.status) h

theorem lookup_updateCounts_other {b : Bool} {cs : List (String × ChapterCounts)}
    {e : Entry} {s : String} (h : s ≠ e.chapter) :
    (updateCounts b cs e).lookup s = cs.lookup s := by
  unfold updateCounts
  split
  · exact lookup_map_update_other (bump b e.status) h
  · rfl

theorem map_fst_foldl_updateCounts (b : Bool) (es : List Entry) :
    ∀ cs : List (String × ChapterCounts),
      (es.foldl (updateCounts b) cs).map Prod.fst = cs.map Prod.fst := by
  induction es with
  | nil => intro cs; rfl
  | cons e rest ih =>
      intro cs
      rw [List.foldl_cons, ih, map_fst_updateCounts]

theorem map_fst_initCounts (chapters : List (String × ChapterMeta)) :
    (initCounts chapters).map Prod.fst = chapters.map Prod.fst := by
  unfold initCounts
  rw [List.map_map]
  rfl

/-- C1: `build_counts` zero-initializes every chapter slug's four counters,
then for every entry of a known chapter increments exactly one counter (the
age-bracket pair chosen by the pass, `submitted` exactly on the literal
status `"submitted"`), leaves every other record unchanged, and ignores
entries of unknown chapters (no counter changes, and the update is a total
function, so nothing can be raised). -/
theorem claim_C1 :
    (∀ (chapters : List (String × ChapterMeta)) es13 es18,
        build_counts chapters es13 es18 =
          es18.foldl (updateCounts true)
            (es13.foldl (updateCounts false) (initCounts chapters))) ∧
    (∀ (chapters : List (String × ChapterMeta)) slug,
        slug ∈ chapters.map Prod.fst →
        (initCounts chapters).lookup slug = some ChapterCounts.zero) ∧
    (∀ (chapters : List (String × ChapterMeta)) es13 es18,
        (build_counts chapters es13 es18).map Prod.fst = chapters.map Prod.fst) ∧
    (∀ (is18 : Bool) (counts : List (String × ChapterCounts)) (e : Entry) c,
        counts.lookup e.chapter = some c →
        (updateCounts is18 counts e).lookup e.chapter =
          some (bump is18 e.status c) ∧
        ∀ s, s ≠ e.chapter →
          (updateCounts is18 counts e).lookup s = counts.lookup s) ∧
    (∀ (is18 : Bool) (st : String) (c : ChapterCounts),
        (is18 = false → st = "submitted" →
          bump is18 st c = ⟨c.sub13 + 1, c.prog13, c.sub18, c.prog18⟩) ∧
        (is18 = false → st ≠ "submitted" →
          bump is18 st c = ⟨c.sub13, c.prog13 + 1, c.sub18, c.prog18⟩) ∧
        (is18 = true → st = "submitted" →
          bump is18 st c = ⟨c.sub13, c.prog13, c.sub18 + 1, c.prog18⟩) ∧
        (is18 = true → st ≠ "submitted" →
          bump is18 st c = ⟨c.sub13, c.prog13, c.sub18, c.prog18 + 1⟩)) ∧
    (∀ (is18 : Bool) (counts : List (String × ChapterCounts)) (e : Entry),
        counts.any (fun p => p.1 = e.chapter) = false →
        updateCounts is18 counts e = counts) := by
  refine ⟨fun _ _ _ => rfl, fun _ _ h => lookup_initCounts h, ?_, ?_, ?_, ?_⟩
  · intro chapters es13 es18
    unfold build_counts
    rw [map_fst_foldl_updateCounts, map_fst_foldl_updateCounts,
        map_fst_initCounts]
  · intro is18 counts e c h
    exact ⟨lookup_updateCounts_self h, fun s hs => lookup_updateCounts_other hs⟩
  · intro is18 st c
    refine ⟨?_, ?_, ?_, ?_⟩ <;> rintro rfl h <;> simp [bump, h]
  · intro is18 counts e h
    exact updateCounts_not_mem h

/-- Witness for C1: a two-chapter mapping, one known submitted entry, one
unknown entry. -/
theorem claim_C1_witness :
    "a" ∈ ([("a", ⟨"Alpha", "AMR"⟩), ("b", ⟨"Beta", "PRC"⟩)] :
        List (String × ChapterMeta)).map Prod.fst ∧
    (initCounts [("a", ⟨"Alpha", "AMR"⟩), ("b", ⟨"Beta", "PRC"⟩)]).lookup "a" =
      some ChapterCounts.zero ∧
    (updateCounts false (initCounts [("a", ⟨"Alpha", "AMR"⟩),
        ("b", ⟨"Beta", "PRC"⟩)]) ⟨"a", "submitted"⟩).lookup "a" =
      some (bump false "submitted" ChapterCounts.zero) ∧
    updateCounts false (initCounts [("a", ⟨"Alpha", "AMR"⟩),
        ("b", ⟨"Beta", "PRC"⟩)]) ⟨"zzz", "submitted"⟩ =
      initCounts [("a", ⟨"Alpha", "AMR"⟩), ("b", ⟨"Beta", "PRC"⟩)] := by
  refine ⟨by decide, ?_, ?_, ?_⟩
  · exact claim_C1.2.1 [("a", ⟨"Alpha", "AMR"⟩), ("b", ⟨"Beta", "PRC"⟩)] "a"
      (by decide)
  · exact (claim_C1.2.2.2.1 false
      (initCounts [("a", ⟨"Alpha", "AMR"⟩), ("b", ⟨"Beta", "PRC"⟩)])
      ⟨"a", "submitted"⟩ ChapterCounts.zero (by decide)).1
  · exact claim_C1.2.2.2.2.2 false
      (initCounts [("a", ⟨"Alpha", "AMR"⟩), ("b", ⟨"Beta", "PRC"⟩)])
      ⟨"zzz", "submitted"⟩ (by decide)

/-! ## Commutativity of the aggregation passes -/

theorem bump_comm (b b' : Bool) (st st' : String) (c : ChapterCounts) :
    bump b st (bump b' st' c) = bump b' st' (bump b st c) := by
  cases c
  cases b <;> cases b' <;> simp only [bump] <;> split_ifs <;> rfl

theorem updateCounts_mem (cs : List (String × ChapterCounts)) (e : Entry)
    (b : Bool) (h : cs.any (fun p => p.1 = e.chapter) = true) :
    updateCounts b cs e =
      cs.map (fun p => if p.1 = e.chapter then (p.1, bump b e.status p.2) else p) := by
  unfold updateCounts
  simp [h]

theorem updateCounts_comm (b b' : Bool) (cs : List (String × ChapterCounts))
    (e e' : Entry) :
    updateCounts b (updateCounts b' cs e') e =
      updateCounts b' (updateCounts b cs e) e' := by
  have hA1 : (updateCounts b' cs e').any (fun p => p.1 = e.chapter) =
      cs.any (fun p => p.1 = e.chapter) :=
    any_updateCounts b' cs e' e.chapter
  have hA2 : (updateCounts b cs e).any (fun p => p.1 = e'.chapter) =
      cs.any (fun p => p.1 = e'.chapter) :=
    any_updateCounts b cs e e'.chapter
  cases hA : cs.any (fun p => p.1 = e.chapter) <;>
    cases hA' : cs.any (fun p => p.1 = e'.chapter)
  · rw [updateCounts_not_mem hA', updateCounts_not_mem hA,
        updateCounts_not_mem hA']
  · rw [updateCounts_not_mem hA, updateCounts_not_mem (hA1.trans hA)]
  · rw [updateCounts_not_mem hA', updateCounts_not_mem (hA2.trans hA')]
  · rw [updateCounts_mem (updateCounts b' cs e') e b (hA1.trans hA),
        updateCounts_mem (updateCounts b cs e) e' b' (hA2.trans hA'),
        updateCounts_mem cs e' b' hA', updateCounts_mem cs e b hA,
        List.map_map, List.map_map]
    apply List.map_congr_left
    intro p _
    by_cases h1 : p.1 = e.chapter
    · by_cases h2 : p.1 = e'.chapter
      · have hee : e.chapter = e'.chapter := h1.symm.trans h2
        simp [Function.comp, h1, h2, hee, bump_comm]
      · have hee : ¬ e.chapter = e'.chapter := fun hh => h2 (h1.trans hh)
        simp [Function.comp, h1, h2, hee]
    · by_cases h2 : p.1 = e'.chapter
      · have hee : ¬ e'.chapter = e.chapter := fun hh => h1 (h2.trans hh)
        simp [Function.comp, h1, h2, hee]
      · simp [Function.comp, h1, h2]

theorem foldl_updateCounts_past (b b' : Bool) (e : Entry) (es : List Entry) :
    ∀ cs : List (String × ChapterCounts),
      es.foldl (updateCounts b') (updateCounts b cs e) =
        updateCounts b (es.foldl (updateCounts b') cs) e := by
  induction es with
  | nil => intro cs; rfl
  | cons x rest ih =>
      intro cs
      rw [List.foldl_cons, List.foldl_cons, ← updateCounts_comm, ih]

theorem foldl_updateCounts_swap (b b' : Bool) (es : List Entry) :
    ∀ (es' : List Entry) (cs : List (String × ChapterCounts)),
      es'.foldl (updateCounts b') (es.foldl (updateCounts b) cs) =
        es.foldl (updateCounts b) (es'.foldl (updateCounts b') cs) := by
  induction es with
  | nil => intro es' cs; rfl
  | cons x rest ih =>
      intro es' cs
      rw [List.foldl_cons, ih, List.foldl_cons, foldl_updateCounts_past]

/-- C6: the final counts mapping is invariant under permuting the entries
inside each category pass and under swapping the two passes: counter
updates commute, so entry order never affects the result. -/
theorem claim_C6 (chapters : List (String × ChapterMeta))
    (es13 es13' es18 es18' : List Entry)
    (h13 : es13.Perm es13') (h18 : es18.Perm es18') :
    build_counts chapters es13 es18 = build_counts chapters es13' es18' ∧
    build_counts chapters es13 es18 = build_countsSwapped chapters es13 es18 := by
  constructor
  · show List.foldl (updateCounts true)
        (List.foldl (updateCounts false) (initCounts chapters) es13) es18 =
      List.foldl (updateCounts true)
        (List.foldl (updateCounts false) (initCounts chapters) es13') es18'
    rw [h13.foldl_eq' (fun x _ y _ z => updateCounts_comm false false z y x)
          (initCounts chapters),
        h18.foldl_eq' (fun x _ y _ z => updateCounts_comm true true z y x)]
  · show List.foldl (updateCounts true)
        (List.foldl (updateCounts false) (initCounts chapters) es13) es18 =
      List.foldl (updateCounts false)
        (List.foldl (updateCounts true) (initCounts chapters) es18) es13
    rw [foldl_updateCounts_swap]

/-- Witness for C6: two two-element passes, each permuted. -/
theorem claim_C6_witness :
    ([⟨"a", "submitted"⟩, ⟨"b", "open"⟩] : List Entry).Perm
      [⟨"b", "open"⟩, ⟨"a", "submitted"⟩] ∧
    build_counts [("a", ⟨"Alpha", "AMR"⟩), ("b", ⟨"Beta", "PRC"⟩)]
        [⟨"a", "submitted"⟩, ⟨"b", "open"⟩] [⟨"a", "open"⟩] =
      build_counts [("a", ⟨"Alpha", "AMR"⟩), ("b", ⟨"Beta", "PRC"⟩)]
        [⟨"b", "open"⟩, ⟨"a", "submitted"⟩] [⟨"a", "open"⟩] :=
  ⟨by decide,
   (claim_C6 [("a", ⟨"Alpha", "AMR"⟩), ("b", ⟨"Beta", "PRC"⟩)]
      [⟨"a", "submitted"⟩, ⟨"b", "open"⟩] [⟨"b", "open"⟩, ⟨"a", "submitted"⟩]
      [⟨"a", "open"⟩] [⟨"a", "open"⟩] (by decide) (by decide)).1⟩

/-! ## Lemmas about the paginated fetcher -/

theorem chain_length {server : String → Option String → Page α}
    {u : String} {params : Option String} {batches : List (List α)}
    {reqs : List Req} (h : Chain server u params batches reqs) :
    reqs.length = batches.length := by
  induction h with
  | last _ _ => rfl
  | step _ _ _ ih => simpa using ih

theorem chain_params_or {server : String → Option String → Page α}
    {u : String} {params : Option String} {batches : List (List α)}
    {reqs : List Req} (h : Chain server u params batches reqs) :
    ∀ q ∈ reqs, q.2 = params ∨ q.2 = none := by
  induction h with
  | last _ _ =>
      intro q hq
      rcases List.mem_cons.mp hq with rfl | hq'
      · exact Or.inl rfl
      · simp at hq'
  | step _ _ _ ih =>
      intro q hq
      rcases List.mem_cons.mp hq with rfl | hq'
      · exact Or.inl rfl
      · rcases ih q hq' with h' | h' <;> exact Or.inr h'

theorem chain_head {server : String → Option String → Page α}
    {u : String} {params : Option String} {batches : List (List α)}
    {reqs : List Req} (h : Chain server u params batches reqs) :
    reqs.head? = some (u, params) := by
  cases h <;> rfl

theorem chain_tail_params {server : String → Option String → Page α}
    {u : String} {params : Option String} {batches : List (List α)}
    {reqs : List Req} (h : Chain server u params batches reqs) :
    ∀ q ∈ reqs.tail, q.2 = none := by
  cases h with
  | last _ _ => intro q hq; simp at hq
  | step _ _ hrest =>
      intro q hq
      rcases chain_params_or hrest q hq with h' | h' <;> exact h'

theorem cfLoop_chain {server : String → Option String → Page α}
    {u : String} {params : Option String} {batches : List (List α)}
    {reqs : List Req} (h : Chain server u params batches reqs) :
    ∀ fuel, reqs.length ≤ fuel → ∀ (acc : List α) (reqs0 : List Req),
      cfLoop server fuel (some u) params acc reqs0 =
        .ok (acc ++ batches.flatten) (reqs0 ++ reqs) := by
  induction h with
  | last hst hnext =>
      rename_i u' params'
      intro fuel hfuel acc reqs0
      obtain ⟨f, rfl⟩ : ∃ f, fuel = f + 1 := by
        cases fuel with
        | zero => simp at hfuel
        | succ f => exact ⟨f, rfl⟩
      rw [cfLoop]
      simp only [Nat.not_le.mpr hst, if_false, hnext]
      rw [cfLoop]
      simp
  | step hst hnext hrest ih =>
      rename_i u' params' u'' batches' reqs'
      intro fuel hfuel acc reqs0
      obtain ⟨f, rfl⟩ : ∃ f, fuel = f + 1 := by
        cases fuel with
        | zero => simp at hfuel
        | succ f => exact ⟨f, rfl⟩
      rw [cfLoop]
      simp only [Nat.not_le.mpr hst, if_false, hnext]
      rw [ih f (by simpa using hfuel) (acc ++ (server u' params').pdata)
            (reqs0 ++ [(u', params')])]
      simp

/-- C4: over any finite chain of successful pages, `cf_get_all` (given
enough fuel) returns the concatenation of every page's `data` batch in
original order, issues exactly one request per page following the
next-page references, and sends the caller's `params` only on the first
request (every follow-up request, made to a self-contained next-page url,
carries none). -/
theorem claim_C4 {α : Type} {server : String → Option String → Page α}
    {path : String} {params : Option String} {batches : List (List α)}
    {reqs : List Req} {fuel : Nat}
    (h : Chain server (BASE_URL ++ path) params batches reqs)
    (hfuel : reqs.length ≤ fuel) :
    cf_get_all server fuel path params = .ok batches.flatten reqs ∧
    reqs.length = batches.length ∧
    reqs.head? = some (BASE_URL ++ path, params) ∧
    ∀ q ∈ reqs.tail, q.2 = none := by
  refine ⟨?_, chain_length h, chain_head h, chain_tail_params h⟩
  unfold cf_get_all
  rw [cfLoop_chain h fuel hfuel [] []]
  simp

set_option maxRecDepth 100000 in
/-- Witness for C4: the 3-page fixture (batch sizes 100, 100, 7) yields all
207 records in order with exactly 3 requests, the caller's params sent
only on the first. -/
theorem claim_C4_witness :
    cf_get_all fixtureServer 3 "/entry" (some "category=ZLgyzemp&per_page=100") =
      .ok ([List.range 100, (List.range 100).map (fun n => n + 100),
            (List.range 7).map (fun n => n + 200)].flatten)
        [(BASE_URL ++ "/entry", some "category=ZLgyzemp&per_page=100"),
         ("page2", none), ("page3", none)] ∧
    ([List.range 100, (List.range 100).map (fun n => n + 100),
      (List.range 7).map (fun n => n + 200)].flatten).length = 207 ∧
    [(BASE_URL ++ "/entry", some "category=ZLgyzemp&per_page=100"),
     ("page2", (none : Option String)), ("page3", none)].length = 3 := by
  refine ⟨?_, by decide, by decide⟩
  refine (claim_C4 ?_ (by decide)).1
  exact @Chain.step _ fixtureServer (BASE_URL ++ "/entry")
    (some "category=ZLgyzemp&per_page=100") "page2"
    [(List.range 100).map (fun n => n + 100),
     (List.range 7).map (fun n => n + 200)]
    [("page2", none), ("page3", none)]
    (by decide) (by decide)
    (@Chain.step _ fixtureServer "page2" none "page3"
      [(List.range 7).map (fun n => n + 200)] [("page3", none)]
      (by decide) (by decide)
      (@Chain.last _ fixtureServer "page3" none (by decide) (by decide)))

/-- C10: the loop ends exactly when `body.get("next_page_url") or None`
yields `None` — i.e. when the reference is absent or falsy (the empty
string); an empty-string reference ends pagination cleanly after the
current page, with no further request; and on a server whose every
response carries a truthy next-page reference the loop never terminates
(no fuel bound suffices), as the code has no maximum page count. -/
theorem claim_C10 :
    (orNone none = none ∧ orNone (some "") = none ∧
      ∀ s : String, s ≠ "" → orNone (some s) = some s) ∧
    (∀ (α : Type) (server : String → Option String → Page α) fuel url params
        (acc : List α) (reqs : List Req),
      (server url params).status < 400 →
      orNone (server url params).next_page_url = none →
      cfLoop server (fuel + 1) (some url) params acc reqs =
        .ok (acc ++ (server url params).pdata) (reqs ++ [(url, params)])) ∧
    (∀ (α : Type) (server : String → Option String → Page α),
      (∀ url params, (server url params).status < 400 ∧
        orNone (server url params).next_page_url ≠ none) →
      ∀ fuel url params (acc : List α) (reqs : List Req),
        cfLoop server fuel (some url) params acc reqs = .diverge) := by
  refine ⟨⟨rfl, rfl, fun s hs => by simp [orNone, hs]⟩, ?_, ?_⟩
  · intro α server fuel url params acc reqs hst hnext
    rw [cfLoop]
    simp only [Nat.not_le.mpr hst, if_false, hnext]
    rw [cfLoop]
  · intro α server hserver fuel
    induction fuel with
    | zero => intro url params acc reqs; rfl
    | succ f ih =>
        intro url params acc reqs
        obtain ⟨hst, hnext⟩ := hserver url params
        obtain ⟨u', hu'⟩ := Option.ne_none_iff_exists'.mp hnext
        rw [cfLoop]
        simp only [Nat.not_le.mpr hst, if_false, hu']
        exact ih u' none (acc ++ (server url params).pdata)
          (reqs ++ [(url, params)])

/-- Witness for C10: a page whose `next_page_url` is the empty string ends
the fetch after one request, and the cycling server diverges at fuel 5. -/
theorem claim_C10_witness :
    cfLoop (fun _ _ => (⟨200, [7], some ""⟩ : Page Nat)) (2 + 1)
        (some "u") (some "p") [] [] =
      .ok ([] ++ [7]) ([] ++ [("u", some "p")]) ∧
    cfLoop cycleServer 5 (some "u") none [] [] = .diverge :=
  ⟨claim_C10.2.1 Nat (fun _ _ => ⟨200, [7], some ""⟩) 2 "u" (some "p") [] []
      (by decide) (by decide),
   claim_C10.2.2 Nat cycleServer
      (fun url params => ⟨by simp [cycleServer], by simp [cycleServer, orNone]⟩)
      5 "u" none [] []⟩

/-- C5: a page with a non-success status makes the fetch loop raise
immediately (`err` carries no items — no partial result — and the request
log ends at that request — no retry); the error propagates from chapter
loading or entry aggregation to `main`'s single boundary, where it is
caught and logged (`runFailed`), and the run's log shows no saved workbook
and no Telegram activity: no artifact, no delivery attempt. -/
theorem claim_C5 :
    (∀ (α : Type) (server : String → Option String → Page α) fuel url params
        (acc : List α) (reqs : List Req),
      400 ≤ (server url params).status →
      cfLoop server (fuel + 1) (some url) params acc reqs =
        .err (server url params).status (reqs ++ [(url, params)])) ∧
    (∀ (w : World) s reqs, w.apiKey ≠ "" →
      fetch_chapters w = .err s reqs →
      mainRun w = some [.runStart, .runFailed (.http s), .runEnd]) ∧
    (∀ (w : World) recs reqs s reqs', w.apiKey ≠ "" →
      fetch_chapters w = .ok recs reqs →
      gather_entries w "ZLgyzemp" = .err s reqs' →
      mainRun w = some [.runStart, .chaptersLoaded (chaptersOfRecs recs).length,
        .pullingEntries "ZLgyzemp", .runFailed (.http s), .runEnd]) := by
  refine ⟨?_, ?_, ?_⟩
  · intro α server fuel url params acc reqs hst
    rw [cfLoop]
    simp [hst]
  · intro w s reqs hkey hfc
    simp [mainRun, mainBody, hkey, hfc]
  · intro w recs reqs s reqs' hkey hfc hge
    have hslug : (CATEGORY_SLUGS.lookup "13_17").getD "" = "ZLgyzemp" := by decide
    simp [mainRun, mainBody, hkey, hfc, hslug, hge]

/-- Witness for C5: the 500-ing chapter server aborts the fetch at the
first page and the run's log is just the caught failure between the two
markers. -/
theorem claim_C5_witness :
    cfLoop errChapterServer (0 + 1) (some (BASE_URL ++ "/chapter"))
        (some "status=active&per_page=100") [] [] =
      .err 500 [(BASE_URL ++ "/chapter", some "status=active&per_page=100")] ∧
    mainRun wChapterFail =
      some [.runStart, .runFailed (.http 500), .runEnd] := by
  constructor
  · exact claim_C5.1 ChapterRec errChapterServer 0 (BASE_URL ++ "/chapter")
      (some "status=active&per_page=100") [] [] (by decide)
  · exact claim_C5.2.1 wChapterFail 500
      [(BASE_URL ++ "/chapter", some "status=active&per_page=100")]
      (by decide) (by decide)

/-- Counterexample to C7: the claim says `send` never raises for any
outcome of the upload transport, but `send_to_telegram` has no handler
around its transport call — when the transport raises (e.g. a timeout),
the exception propagates out of `send` instead of being reported. -/
theorem claim_C7_counterexample :
    (send_to_telegram "bot-token" "42" (TgOutcome.raise "ReadTimeout")).2 =
      Except.error "ReadTimeout" := rfl

/-- C7 as amended: with a missing bot token or chat id, `send` attempts no
delivery and reports that distinctly from a transport failure; whenever
the transport returns a response (rather than raising), `send` returns
normally, reporting the remote response detail on a non-success response,
so such a delivery failure cannot abort the already-completed report
generation; only a raising transport (timeout, connection failure)
escapes to the orchestrator's boundary. -/
theorem claim_C7_amended :
    (∀ botToken chatId out, botToken = "" ∨ chatId = "" →
      send_to_telegram botToken chatId out =
        (false, .ok [Event.tgMissingCreds])) ∧
    (∀ text, Event.tgMissingCreds ≠ Event.tgFailed text) ∧
    (∀ botToken chatId ok text, botToken ≠ "" → chatId ≠ "" →
      send_to_telegram botToken chatId (.resp ok text) =
        (true, .ok [if ok then Event.tgSent else Event.tgFailed text])) := by
  refine ⟨?_, fun text h => by simp at h, ?_⟩
  · intro bt cid out h
    unfold send_to_telegram
    rw [if_pos h]
  · intro bt cid ok text h1 h2
    unfold send_to_telegram
    rw [if_neg (not_or.mpr ⟨h1, h2⟩)]

/-- Witness for the amended C7: missing token skips delivery; a non-OK
response is reported as a failure with its detail, without raising. -/
theorem claim_C7_amended_witness :
    send_to_telegram "" "42" (.resp true "ok") =
      (false, .ok [Event.tgMissingCreds]) ∧
    send_to_telegram "bot-token" "42" (.resp false "bad request") =
      (true, .ok [Event.tgFailed "bad request"]) :=
  ⟨claim_C7_amended.1 "" "42" (TgOutcome.resp true "ok") (Or.inl rfl),
   claim_C7_amended.2.2 "bot-token" "42" false "bad request" (by decide)
     (by decide)⟩

/-- Counterexample to C8: on the missing-API-key abort path the claimed
start/end markers are not emitted — `main` returns before the start
marker, so the run's log is the single error line and carries neither
marker. -/
theorem claim_C8_counterexample :
    mainRun wKeyMissing = some [Event.logKeyMissing] ∧
    Event.runStart ∉ [Event.logKeyMissing] ∧
    Event.runEnd ∉ [Event.logKeyMissing] :=
  ⟨by decide, by decide, by decide⟩

/-- C8 as amended: when the API key is present, every terminating run's
log is bracketed by the start and end markers (first event `runStart`,
last event `runEnd`), whatever the outcome in between; when the API key is
absent, the run logs exactly the single missing-key error and emits no
markers. -/
theorem claim_C8_amended (w : World) (log : List Event)
    (h : mainRun w = some log) :
    (w.apiKey = "" → log = [Event.logKeyMissing]) ∧
    (w.apiKey ≠ "" →
      ∃ mid, log = Event.runStart :: mid ++ [Event.runEnd]) := by
  constructor
  · intro hk
    rw [mainRun, if_pos hk] at h
    exact (Option.some_inj.mp h).symm
  · intro hk
    rw [mainRun, if_neg hk] at h
    cases hb : mainBody w with
    | none => simp [hb] at h
    | some evs =>
        rw [hb] at h
        exact ⟨evs, by simpa using h.symm⟩

/-- Witness for the amended C8: a failing run with the key present is
still bracketed by the two markers. -/
theorem claim_C8_amended_witness :
    mainRun wChapterFail =
      some [Event.runStart, Event.runFailed (.http 500), Event.runEnd] ∧
    ∃ mid, [Event.runStart, Event.runFailed (.http 500), Event.runEnd] =
      Event.runStart :: mid ++ [Event.runEnd] :=
  ⟨by decide,
   (claim_C8_amended wChapterFail
      [Event.runStart, Event.runFailed (.http 500), Event.runEnd]
      (by decide)).2 (by decide)⟩

/-! ## The sort order: code-point comparison lemmas -/

theorem cmpN_swap : ∀ as bs : List Char, cmpN bs as = (cmpN as bs).swap
  | [], [] => rfl
  | [], _ :: _ => rfl
  | _ :: _, [] => rfl
  | a :: as, b :: bs => by
      simp only [cmpN]
      rcases Nat.lt_trichotomy a.toNat b.toNat with h | h | h
      · simp [h, Nat.lt_asymm h, Ordering.swap]
      · simp [h, Nat.lt_irrefl, cmpN_swap as bs]
      · simp [h, Nat.lt_asymm h, Ordering.swap]

theorem cmpN_eq_congr : ∀ as bs cs : List Char,
    cmpN as bs = .eq → cmpN as cs = cmpN bs cs
  | [], [], _, _ => rfl
  | [], _ :: _, _, h => by simp [cmpN] at h
  | _ :: _, [], _, h => by simp [cmpN] at h
  | a :: as, b :: bs, cs, h => by
      simp only [cmpN] at h
      rcases Nat.lt_trichotomy a.toNat b.toNat with h1 | h1 | h1
      · rw [if_pos h1] at h
        exact absurd h (by decide)
      · rw [if_neg (by omega), if_neg (by omega)] at h
        cases cs with
        | nil => rfl
        | cons c cs0 =>
            simp only [cmpN, h1]
            rw [cmpN_eq_congr as bs cs0 h]
      · rw [if_neg (Nat.lt_asymm h1), if_pos h1] at h
        exact absurd h (by decide)

theorem cmpN_eq_congr_right (bs cs : List Char) (h : cmpN bs cs = .eq)
    (as : List Char) : cmpN as cs = cmpN as bs := by
  have h' : cmpN cs bs = .eq := by rw [cmpN_swap bs cs, h]; rfl
  rw [cmpN_swap cs as, cmpN_eq_congr cs bs as h', ← cmpN_swap bs as]

theorem cmpN_lt_trans : ∀ as bs cs : List Char,
    cmpN as bs = .lt → cmpN bs cs = .lt → cmpN as cs = .lt
  | [], [], _, h1, _ => by simp [cmpN] at h1
  | [], _ :: _, [], _, h2 => by simp [cmpN] at h2
  | [], _ :: _, _ :: _, _, _ => rfl
  | _ :: _, [], _, h1, _ => by simp [cmpN] at h1
  | _ :: _, _ :: _, [], _, h2 => by simp [cmpN] at h2
  | a :: as, b :: bs, c :: cs, h1, h2 => by
      simp only [cmpN] at h1 h2 ⊢
      by_cases hab : a.toNat < b.toNat <;> by_cases hbc : b.toNat < c.toNat
      · rw [if_pos (Nat.lt_trans hab hbc)]
      · rw [if_neg hbc] at h2
        by_cases hcb : c.toNat < b.toNat
        · rw [if_pos hcb] at h2
          exact absurd h2 (by decide)
        · rw [if_pos (by omega)]
      · rw [if_neg hab] at h1
        by_cases hba : b.toNat < a.toNat
        · rw [if_pos hba] at h1
          exact absurd h1 (by decide)
        · rw [if_pos (by omega)]
      · rw [if_neg hab] at h1
        rw [if_neg hbc] at h2
        by_cases hba : b.toNat < a.toNat
        · rw [if_pos hba] at h1
          exact absurd h1 (by decide)
        · rw [if_neg hba] at h1
          by_cases hcb : c.toNat < b.toNat
          · rw [if_pos hcb] at h2
            exact absurd h2 (by decide)
          · rw [if_neg hcb] at h2
            rw [if_neg (by omega), if_neg (by omega)]
            exact cmpN_lt_trans as bs cs h1 h2

theorem keyLE_total (a b : String × String) : (keyLE a b || keyLE b a) = true := by
  unfold keyLE
  rw [cmpN_swap a.1.data b.1.data, cmpN_swap a.2.data b.2.data]
  cases hx : cmpN a.1.data b.1.data <;> cases hy : cmpN a.2.data b.2.data <;>
    simp [hx, hy, Ordering.swap]

theorem keyLE_name_trans {n1 n2 n3 : List Char} (h1 : cmpN n1 n2 ≠ .gt)
    (h2 : cmpN n2 n3 ≠ .gt) : cmpN n1 n3 ≠ .gt := by
  cases hn1 : cmpN n1 n2 with
  | lt =>
      cases hn2 : cmpN n2 n3 with
      | lt => rw [cmpN_lt_trans n1 n2 n3 hn1 hn2]; decide
      | eq => rw [cmpN_eq_congr_right n2 n3 hn2 n1, hn1]; decide
      | gt => exact absurd hn2 h2
  | eq => rw [cmpN_eq_congr n1 n2 n3 hn1]; exact h2
  | gt => exact absurd hn1 h1

theorem keyLE_trans (a b c : String × String) (h1 : keyLE a b = true)
    (h2 : keyLE b c = true) : keyLE a c = true := by
  unfold keyLE at h1 h2 ⊢
  cases hab : cmpN a.1.data b.1.data with
  | lt =>
      rw [hab] at h1
      cases hbc : cmpN b.1.data c.1.data with
      | lt => rw [cmpN_lt_trans _ _ _ hab hbc]
      | eq => rw [cmpN_eq_congr_right _ _ hbc, hab]
      | gt => rw [hbc] at h2; simp at h2
  | eq =>
      rw [hab] at h1
      cases hbc : cmpN b.1.data c.1.data with
      | lt => rw [cmpN_eq_congr _ _ _ hab, hbc]
      | eq =>
          rw [hbc] at h2
          rw [cmpN_eq_congr _ _ _ hab, hbc]
          simp only [decide_eq_true_eq] at h1 h2 ⊢
          exact keyLE_name_trans h1 h2
      | gt => rw [hbc] at h2; simp at h2
  | gt => rw [hab] at h1; simp at h1

/-! ## Lemmas about the report composer -/

theorem sortChapters_sorted (chapters : List (String × ChapterMeta)) :
    (sortChapters chapters).Pairwise
      (fun x y => keyLE (chapterSortKey x) (chapterSortKey y) = true) :=
  @List.sorted_mergeSort _
    (fun x y => keyLE (chapterSortKey x) (chapterSortKey y))
    (fun _ _ _ hxy hyz => keyLE_trans _ _ _ hxy hyz)
    (fun x y => keyLE_total (chapterSortKey x) (chapterSortKey y))
    chapters

theorem sortChapters_perm (chapters : List (String × ChapterMeta)) :
    (sortChapters chapters).Perm chapters :=
  List.mergeSort_perm chapters _

theorem composeRows_spec (counts : List (String × ChapterCounts)) :
    ∀ (l : List (String × ChapterMeta)) (i : Nat),
      (∀ slug ∈ l.map Prod.fst, (counts.lookup slug).isSome) →
      ∃ rows, composeRows counts i l = some rows ∧
        rows.length = l.length ∧
        (∀ j (hj : j < rows.length), (rows.get ⟨j, hj⟩).no = i + j) ∧
        rows.map (fun r => (r.region, strLower r.chapterName)) =
          l.map chapterSortKey ∧
        (∀ r ∈ rows, r.total = r.sub13 + r.prog13 + r.sub18 + r.prog18) := by
  intro l
  induction l with
  | nil =>
      intro i hmem
      exact ⟨[], rfl, rfl, fun j hj => absurd hj (by simp), rfl, by simp⟩
  | cons p rest ih =>
      intro i hmem
      obtain ⟨slug, meta⟩ := p
      have hhead : (counts.lookup slug).isSome := hmem slug (by simp)
      obtain ⟨c, hc⟩ := Option.isSome_iff_exists.mp hhead
      obtain ⟨rows, hrows, hlen, hno, hkeys, htot⟩ :=
        ih (i + 1) (fun s hs => hmem s (by simp [hs]))
      refine ⟨{ no := i, region := meta.region, chapterName := meta.name,
                sub13 := c.sub13, prog13 := c.prog13,
                sub18 := c.sub18, prog18 := c.prog18,
                total := c.total } :: rows, ?_, ?_, ?_, ?_, ?_⟩
      · simp [composeRows, hc, hrows]
      · simp [hlen]
      · intro j hj
        cases j with
        | zero => rfl
        | succ j0 =>
            have hj0 : j0 < rows.length := by simpa using hj
            have h2 := hno j0 hj0
            show (rows.get ⟨j0, hj0⟩).no = i + (j0 + 1)
            rw [h2]
            omega
      · simp only [List.map_cons, hkeys, chapterSortKey]
      · intro r hr
        rcases List.mem_cons.mp hr with rfl | hr'
        · rfl
        · exact htot r hr'

theorem composeRows_keys (counts : List (String × ChapterCounts)) :
    ∀ (l : List (String × ChapterMeta)) (i : Nat) (rows : List ReportRow),
      composeRows counts i l = some rows →
      rows.map (fun r => (r.region, strLower r.chapterName)) =
        l.map chapterSortKey := by
  intro l
  induction l with
  | nil =>
      intro i rows h
      have : rows = [] := by simpa [composeRows] using h.symm
      simp [this]
  | cons p rest ih =>
      intro i rows h
      obtain ⟨slug, meta⟩ := p
      cases hc : counts.lookup slug with
      | none => simp [composeRows, hc] at h
      | some c =>
          cases hr : composeRows counts (i + 1) rest with
          | none => simp [composeRows, hc, hr] at h
          | some rows0 =>
              simp only [composeRows, hc, hr, Option.bind_eq_bind,
                Option.some_bind, Option.pure_def, Option.some.injEq] at h
              rw [← h]
              simp only [List.map_cons, chapterSortKey, ih (i + 1) rows0 hr]

set_option maxRecDepth 40000 in
unseal List.merge List.mergeSort in
/-- C3: when the counts mapping has a record for every chapter slug, the
composed rows exist, are sorted ascending by the key (region, lowercased
chapter name), carry sequence numbers 1..N (the 1-based rank in sorted
order), and each row's total is the sum of its four counters; on the
chapters Zeta(AMR), Alpha(AMR), Beta(PRC) the rows come out
Alpha(AMR), Zeta(AMR), Beta(PRC) numbered 1, 2, 3. -/
theorem claim_C3 (chapters : List (String × ChapterMeta))
    (counts : List (String × ChapterCounts))
    (hc : ∀ slug ∈ chapters.map Prod.fst, (counts.lookup slug).isSome) :
    (∃ rows, compose chapters counts = some rows ∧
      rows.length = chapters.length ∧
      rows.Pairwise (fun r r' =>
        keyLE (r.region, strLower r.chapterName)
          (r'.region, strLower r'.chapterName) = true) ∧
      (∀ j (hj : j < rows.length), (rows.get ⟨j, hj⟩).no = j + 1) ∧
      (∀ r ∈ rows, r.total = r.sub13 + r.prog13 + r.sub18 + r.prog18)) ∧
    compose [("z", ⟨"Zeta", "AMR"⟩), ("a", ⟨"Alpha", "AMR"⟩),
             ("b", ⟨"Beta", "PRC"⟩)]
        (initCounts [("z", ⟨"Zeta", "AMR"⟩), ("a", ⟨"Alpha", "AMR"⟩),
                     ("b", ⟨"Beta", "PRC"⟩)]) =
      some [⟨1, "AMR", "Alpha", 0, 0, 0, 0, 0⟩,
            ⟨2, "AMR", "Zeta", 0, 0, 0, 0, 0⟩,
            ⟨3, "PRC", "Beta", 0, 0, 0, 0, 0⟩] := by
  constructor
  · have hmem : ∀ slug ∈ (sortChapters chapters).map Prod.fst,
        (counts.lookup slug).isSome := fun slug hs =>
      hc slug (((sortChapters_perm chapters).map Prod.fst).mem_iff.mp hs)
    obtain ⟨rows, hrows, hlen, hno, hkeys, htot⟩ :=
      composeRows_spec counts (sortChapters chapters) 1 hmem
    refine ⟨rows, hrows, ?_, ?_, ?_, htot⟩
    · rw [hlen, (sortChapters_perm chapters).length_eq]
    · have hp1 : ((sortChapters chapters).map chapterSortKey).Pairwise
          (fun u v => keyLE u v = true) :=
        List.pairwise_map.mpr (sortChapters_sorted chapters)
      rw [← hkeys] at hp1
      exact List.pairwise_map.mp hp1
    · intro j hj
      rw [hno j hj]
      omega
  · decide

set_option maxRecDepth 40000 in
unseal List.merge List.mergeSort in
/-- Witness for C3: the Zeta/Alpha/Beta fixture, counts all zero. -/
theorem claim_C3_witness :
    compose [("z", ⟨"Zeta", "AMR"⟩), ("a", ⟨"Alpha", "AMR"⟩),
             ("b", ⟨"Beta", "PRC"⟩)]
        (initCounts [("z", ⟨"Zeta", "AMR"⟩), ("a", ⟨"Alpha", "AMR"⟩),
                     ("b", ⟨"Beta", "PRC"⟩)]) =
      some [⟨1, "AMR", "Alpha", 0, 0, 0, 0, 0⟩,
            ⟨2, "AMR", "Zeta", 0, 0, 0, 0, 0⟩,
            ⟨3, "PRC", "Beta", 0, 0, 0, 0, 0⟩] :=
  (claim_C3 [("z", ⟨"Zeta", "AMR"⟩), ("a", ⟨"Alpha", "AMR"⟩),
             ("b", ⟨"Beta", "PRC"⟩)]
    (initCounts [("z", ⟨"Zeta", "AMR"⟩), ("a", ⟨"Alpha", "AMR"⟩),
                 ("b", ⟨"Beta", "PRC"⟩)]) (by decide)).2

theorem chapter_to_region_mem_tags (name : String) :
    chapter_to_region name ∈ regionTags := by
  show (if strLower name = "global festival" then "Other"
        else regionLookup (strLower name) REGION_MAP) ∈ regionTags
  split
  · simp [regionTags]
  · simp only [REGION_MAP, regionLookup, regionTags]
    split_ifs <;> simp

theorem keyLE_region_rank {r1 r2 n1 n2 : String}
    (h1 : r1 ∈ regionTags) (h2 : r2 ∈ regionTags)
    (hle : keyLE (r1, n1) (r2, n2) = true) :
    regionRank r1 ≤ regionRank r2 := by
  simp only [regionTags, List.mem_cons, List.not_mem_nil, or_false] at h1 h2
  rcases h1 with rfl | rfl | rfl | rfl | rfl <;>
    rcases h2 with rfl | rfl | rfl | rfl | rfl <;>
    first
      | decide
      | exact Bool.noConfusion hle

/-- C9 (implicit): the "sorted by region" component of the report order is
plain lexicographic (code-point) order on the region tag strings, and the
five tags the classifier can produce rank in the fixed concrete order
AMR < APJ < EMEA < Other < PRC; consequently, whenever every chapter's
region is one of the five tags (as `chapter_to_region` guarantees), the
composed rows group regions in exactly that order. -/
theorem claim_C9 :
    (∀ name, chapter_to_region name ∈ regionTags) ∧
    (regionRank "AMR" = 0 ∧ regionRank "APJ" = 1 ∧ regionRank "EMEA" = 2 ∧
      regionRank "Other" = 3 ∧ regionRank "PRC" = 4) ∧
    (∀ r1 r2, r1 ∈ regionTags → r2 ∈ regionTags →
      (cmpN r1.data r2.data = .lt ↔ regionRank r1 < regionRank r2)) ∧
    (∀ (chapters : List (String × ChapterMeta)) counts rows,
      (∀ p ∈ chapters, (p : String × ChapterMeta).2.region ∈ regionTags) →
      compose chapters counts = some rows →
      rows.Pairwise (fun r r' => regionRank r.region ≤ regionRank r'.region)) := by
  refine ⟨chapter_to_region_mem_tags, by decide, ?_, ?_⟩
  · intro r1 r2 h1 h2
    simp only [regionTags, List.mem_cons, List.not_mem_nil, or_false] at h1 h2
    rcases h1 with rfl | rfl | rfl | rfl | rfl <;>
      rcases h2 with rfl | rfl | rfl | rfl | rfl <;> decide
  · intro chapters counts rows hreg hcomp
    have hcomp' : composeRows counts 1 (sortChapters chapters) = some rows :=
      hcomp
    have hkeys := composeRows_keys counts (sortChapters chapters) 1 rows hcomp'
    have hp1 : ((sortChapters chapters).map chapterSortKey).Pairwise
        (fun u v => keyLE u v = true) :=
      List.pairwise_map.mpr (sortChapters_sorted chapters)
    rw [← hkeys] at hp1
    have hp2 := List.pairwise_map.mp hp1
    have hregs : rows.map (fun r => r.region) =
        (sortChapters chapters).map (fun p => p.2.region) := by
      have hmap := congrArg (List.map Prod.fst) hkeys
      rw [List.map_map, List.map_map] at hmap
      exact hmap
    have hmemtags : ∀ r ∈ rows, r.region ∈ regionTags := by
      intro r hr
      have h1 : r.region ∈ rows.map (fun r => r.region) :=
        List.mem_map_of_mem (fun r => r.region) hr
      rw [hregs] at h1
      obtain ⟨p, hp, hpr⟩ := List.mem_map.mp h1
      rw [← hpr]
      exact hreg p ((sortChapters_perm chapters).mem_iff.mp hp)
    exact hp2.imp_of_mem
      (fun ha hb hab => keyLE_region_rank (hmemtags _ ha) (hmemtags _ hb) hab)

set_option maxRecDepth 40000 in
unseal List.merge List.mergeSort in
/-- Witness for C9: AMR ranks strictly below PRC in the sort order, and
the Zeta/Alpha/Beta fixture's composed rows are rank-monotone in region. -/
theorem claim_C9_witness :
    (cmpN "AMR".data "PRC".data = .lt ∧
      regionRank "AMR" < regionRank "PRC") ∧
    List.Pairwise (fun r r' => regionRank r.region ≤ regionRank r'.region)
      [(⟨1, "AMR", "Alpha", 0, 0, 0, 0, 0⟩ : ReportRow),
       ⟨2, "AMR", "Zeta", 0, 0, 0, 0, 0⟩,
       ⟨3, "PRC", "Beta", 0, 0, 0, 0, 0⟩] :=
  ⟨⟨(claim_C9.2.2.1 "AMR" "PRC" (by decide) (by decide)).mpr (by decide),
    by decide⟩,
   claim_C9.2.2.2 [("z", ⟨"Zeta", "AMR"⟩), ("a", ⟨"Alpha", "AMR"⟩),
      ("b", ⟨"Beta", "PRC"⟩)]
    (initCounts [("z", ⟨"Zeta", "AMR"⟩), ("a", ⟨"Alpha", "AMR"⟩),
                 ("b", ⟨"Beta", "PRC"⟩)])
    [⟨1, "AMR", "Alpha", 0, 0, 0, 0, 0⟩, ⟨2, "AMR", "Zeta", 0, 0, 0, 0, 0⟩,
     ⟨3, "PRC", "Beta", 0, 0, 0, 0, 0⟩] (by decide) (by decide)⟩
